import Mathlib

/-
Verification of guppy0130/systemd-calendar-parser-node.

Shallow embedding of `src/utils.ts` (the `range` generator) and
`src/index.ts` (field expanders and `getNext`).  JavaScript numbers are
modelled as exact integers extended with NaN: every number this code
feeds through these functions is integer-valued (token texts are decimal
digit strings, weekday indices, field maxima), so floating-point rounding
never enters the behaviour under study.  Generators are modelled by the
finite list of values they yield; `while` loops are modelled by
fuel-indexed structural recursion together with a proved stabilisation
property (the output is the same for every sufficient fuel), which is the
termination content of the loop.  Thrown exceptions are modelled with
`Except`.
-/

namespace SystemdCalendar

/-- Model of a JavaScript number as this code base uses them: an exact
integer or the not-a-number value.  (`Number(text)` on the grammar's digit
tokens, weekday indices and field maxima are all integers.) -/
inductive JSNum where
  | nan : JSNum
  | int : Int → JSNum
deriving DecidableEq, Repr

/-- JavaScript `<` on numbers: every comparison involving NaN is false. -/
def jsLt : JSNum → JSNum → Bool
  | JSNum.int x, JSNum.int y => decide (x < y)
  | _, _ => false

/-- JavaScript `Math.min(x, m)` with an integer second argument: NaN is
absorbing. -/
def jsMin : JSNum → Int → JSNum
  | JSNum.nan, _ => JSNum.nan
  | JSNum.int x, m => JSNum.int (min x m)

/-- Decimal digit accumulator for `jsNumber`. -/
def parseDigits : Option Nat → List Char → Option Nat
  | acc, [] => acc
  | acc, c :: cs =>
    if ('0' ≤ c ∧ c ≤ '9') then
      parseDigits (some ((acc.getD 0) * 10 + (c.toNat - 48))) cs
    else
      none

/-- Model of JavaScript `Number(text)` on the token texts this code feeds
it: a nonempty decimal digit string parses to its value, anything else is
NaN.  (The grammar only hands these functions digit tokens.) -/
def jsNumber (s : String) : JSNum :=
  match parseDigits none s.data with
  | some n => JSNum.int (Int.ofNat n)
  | none => JSNum.nan

/-- Argument list of a call to `range`; the source dispatches on
`arguments.length`, which this inductive mirrors. -/
inductive RangeArgs where
  | one : JSNum → RangeArgs
  | two : JSNum → JSNum → RangeArgs
  | three : JSNum → JSNum → JSNum → RangeArgs
deriving DecidableEq, Repr

/-- The ascending `while (start < stop) { yield start; start += step }`
loop of `range`, with explicit fuel.  `rangeAsc` below supplies fuel that
is proved sufficient (see the stabilisation theorem for claim C9), so this
is exactly the loop's yielded sequence. -/
def rangeAscFuel : Nat → Int → Int → Int → List Int
  | 0, _, _, _ => []
  | fuel + 1, start, stop, step =>
    if 0 < step ∧ start < stop then
      start :: rangeAscFuel fuel (start + step) stop step
    else
      []

/-- The descending `while (start > stop)` loop of `range`, with fuel. -/
def rangeDescFuel : Nat → Int → Int → Int → List Int
  | 0, _, _, _ => []
  | fuel + 1, start, stop, step =>
    if step < 0 ∧ stop < start then
      start :: rangeDescFuel fuel (start + step) stop step
    else
      []

/-- Ascending loop with sufficient fuel. -/
def rangeAsc (start stop step : Int) : List Int :=
  rangeAscFuel (stop - start).toNat start stop step

/-- Descending loop with sufficient fuel. -/
def rangeDesc (start stop step : Int) : List Int :=
  rangeDescFuel (start - stop).toNat start stop step

/-- Body of `range` after the three arguments have been fixed: the
`isNaN` guard, the `start === stop || !_step` guard, and the two guarded
while loops from `src/utils.ts`. -/
def rangeCore (start stop step : JSNum) : List Int :=
  match start, stop, step with
  | JSNum.int s, JSNum.int t, JSNum.int st =>
    if s = t ∨ st = 0 then []
    else if s < t then (if st < 0 then [] else rangeAsc s t st)
    else if 0 < st then [] else rangeDesc s t st
  | _, _, _ => []

/-- The `range` generator of `src/utils.ts`: the `switch` on
`arguments.length` fixes `(start, stop, _step)` and `rangeCore` runs the
guards and loops. -/
def range (args : RangeArgs) : List Int :=
  match args with
  | RangeArgs.one a => rangeCore (JSNum.int 0) a (JSNum.int 1)
  | RangeArgs.two a b =>
    rangeCore a b (if jsLt a b then JSNum.int 1 else JSNum.int (-1))
  | RangeArgs.three a b c => rangeCore a b c

/-- A-priori bound on how many values a `range` call can yield. -/
def rangeBound : RangeArgs → Nat
  | RangeArgs.one (JSNum.int z) => z.toNat
  | RangeArgs.two (JSNum.int a) (JSNum.int b) => (b - a).natAbs
  | RangeArgs.three (JSNum.int a) (JSNum.int b) _ => (b - a).natAbs
  | _ => 0

/-- A parse-tree node (`IToken` of the external grammar engine): a type
tag, the raw matched text, and the ordered child list.  The source also
stores a parent back-reference used only to read
`token.parent.parent.type` inside `expandTimeUnitSpecEntry`; since a
purely functional tree has no back-pointers, that grandparent type tag is
passed to the embedding explicitly where the source reads it. -/
inductive Token where
  | mk : String → String → List Token → Token

/-- Type tag of a node. -/
def Token.type : Token → String
  | Token.mk ty _ _ => ty

/-- Raw matched text of a node. -/
def Token.text : Token → String
  | Token.mk _ tx _ => tx

/-- Children of a node. -/
def Token.children : Token → List Token
  | Token.mk _ _ cs => cs

/-- The errors thrown by `src/index.ts`: `UnexpectedTokenTypeError`
(expected type, received type), `UnexpectedChildrenError` (expected-count
description), plain `new Error(msg)`, `TypeError(msg)` and
`RangeError(msg)`. -/
inductive JsError where
  | unexpectedTokenType : String → String → JsError
  | unexpectedChildren : String → JsError
  | error : String → JsError
  | typeError : String → JsError
  | rangeError : String → JsError
deriving DecidableEq, Repr

instance {ε α : Type} [DecidableEq ε] [DecidableEq α] : DecidableEq (Except ε α) :=
  fun a b =>
    match a, b with
    | Except.error e, Except.error f =>
      if h : e = f then Decidable.isTrue (congrArg Except.error h)
      else Decidable.isFalse (fun hh => h (Except.error.inj hh))
    | Except.error _, Except.ok _ => Decidable.isFalse (fun hh => Except.noConfusion hh)
    | Except.ok _, Except.error _ => Decidable.isFalse (fun hh => Except.noConfusion hh)
    | Except.ok x, Except.ok y =>
      if h : x = y then Decidable.isTrue (congrArg Except.ok h)
      else Decidable.isFalse (fun hh => h (Except.ok.inj hh))

/-- Throws unless the root token's type is `expectedType`. -/
def assertTokenType (tokens : Token) (expectedType : String) : Except JsError Unit :=
  if tokens.type = expectedType then Except.ok ()
  else Except.error (JsError.unexpectedTokenType expectedType tokens.type)

/-- Throws unless the token has exactly `expected` children. -/
def assertChildrenLengthEQ (tokens : Token) (expected : Nat) : Except JsError Unit :=
  if tokens.children.length = expected then Except.ok ()
  else Except.error (JsError.unexpectedChildren (Nat.repr expected))

/-- Throws unless the token has at least `minimum` children. -/
def assertChildrenLengthGEQ (tokens : Token) (minimum : Nat) : Except JsError Unit :=
  if tokens.children.length < minimum then
    Except.error (JsError.unexpectedChildren ("at least " ++ Nat.repr minimum))
  else Except.ok ()

/-- Throws unless the token has at most `maximum` children. -/
def assertChildrenLengthLEQ (tokens : Token) (maximum : Nat) : Except JsError Unit :=
  if tokens.children.length > maximum then
    Except.error (JsError.unexpectedChildren ("at most " ++ Nat.repr maximum))
  else Except.ok ()

mutual

/-- Walk a token tree, extracting the text of every node (the node itself
included) whose type matches `ty`, in document order. -/
def extractTextForType : Token → String → List String
  | Token.mk ty0 tx cs, ty =>
    (if ty0 = ty then [tx] else []) ++ extractTextList cs ty

/-- List counterpart of `extractTextForType` (the `forEach` over the
children). -/
def extractTextList : List Token → String → List String
  | [], _ => []
  | c :: cs, ty => extractTextForType c ty ++ extractTextList cs ty

end

mutual

/-- Modelled from the spec: `findChildrenByType` is imported from the
external grammar engine's semantic helpers (not part of this repository's
src/).  Per the spec the core only reads parse trees; this helper collects
the nodes of the subtree whose type tag equals the requested rule name, in
document order. -/
def findChildrenByType : Token → String → List Token
  | Token.mk ty0 tx cs, ty =>
    (if ty0 = ty then [Token.mk ty0 tx cs] else []) ++ findChildrenList cs ty

/-- List counterpart of `findChildrenByType`. -/
def findChildrenList : List Token → String → List Token
  | [], _ => []
  | c :: cs, ty => findChildrenByType c ty ++ findChildrenList cs ty

end

/-- Lookup in a `Map<string, T>` literal, modelled as association-list
search. -/
def mapLookup {α : Type} : List (String × α) → String → Option α
  | [], _ => none
  | (k, v) :: rest, key => if k = key then some v else mapLookup rest key

/-- Boolean membership in a list of strings (JavaScript's `includes` /
set-membership on string keys). -/
def memB (key : String) : List String → Bool
  | [] => false
  | x :: xs => if x = key then true else memB key xs

/-- JavaScript `Array.prototype.indexOf`: index of the first occurrence,
or `-1` when absent. -/
def jsIndexOf : List String → String → Int
  | [], _ => -1
  | x :: xs, s =>
    if x = s then 0
    else if jsIndexOf xs s = -1 then -1 else jsIndexOf xs s + 1

/-- Model of JavaScript `toLowerCase()` on the ASCII day names this code
lowercases. -/
def jsToLower (s : String) : String :=
  String.mk (s.data.map Char.toLower)

/-- JavaScript `text.toLowerCase().substring(0, 3)`: the lowercased
three-letter key of a day name. -/
def dayKey (s : String) : String :=
  String.mk ((jsToLower s).data.take 3)

/-- Decimal digits of a natural number (fuel-structural so it evaluates in
the kernel; fuel `n` always suffices). -/
def natDigitsAux : Nat → Nat → List Char
  | 0, _ => []
  | _ + 1, 0 => []
  | fuel + 1, n => natDigitsAux fuel (n / 10) ++ [Char.ofNat (48 + n % 10)]

/-- Decimal string of a natural number, as JavaScript `String(n)`. -/
def natToString (n : Nat) : String :=
  if n = 0 then "0" else String.mk (natDigitsAux n n)

/-- JavaScript `String(z)` on an integer. -/
def intToString : Int → String
  | Int.ofNat n => natToString n
  | Int.negSucc n => "-" ++ natToString (n + 1)

/-- Lexicographic comparison of character lists by code point, as
JavaScript compares strings. -/
def charsLe : List Char → List Char → Bool
  | [], _ => true
  | _ :: _, [] => false
  | a :: as, b :: bs =>
    if a.val < b.val then true
    else if b.val < a.val then false
    else charsLe as bs

/-- String `≤` by code points: the order used by JavaScript's default
`Array.prototype.sort` comparator, which compares elements as strings. -/
def strLe (s t : String) : Bool :=
  charsLe s.data t.data

/-- Insert into a sorted list (helper of `insertionSort`). -/
def insertSorted {α : Type} (le : α → α → Bool) (x : α) : List α → List α
  | [] => [x]
  | y :: ys => if le x y then x :: y :: ys else y :: insertSorted le x ys

/-- Sort with the given boolean `≤`; with the string order `strLe` this is
JavaScript's default `.sort()`. -/
def insertionSort {α : Type} (le : α → α → Bool) : List α → List α
  | [] => []
  | x :: xs => insertSorted le x (insertionSort le xs)

/-- Deduplication keeping first occurrences, as iterating a JavaScript
`Set` built by successive `add`s (insertion order). -/
def dedupFirstAux {α : Type} [DecidableEq α] (seen : List α) : List α → List α
  | [] => []
  | x :: xs =>
    if x ∈ seen then dedupFirstAux seen xs
    else x :: dedupFirstAux (x :: seen) xs

/-- Spread of a JavaScript `Set` built from a list. -/
def dedupFirst {α : Type} [DecidableEq α] (l : List α) : List α :=
  dedupFirstAux [] l

/-- JavaScript default sort comparator on integers: compare decimal string
representations. -/
def strLeInt (a b : Int) : Bool :=
  strLe (intToString a) (intToString b)

/-- String form JavaScript uses when default-sorting these values
(`String(NaN) = "NaN"`). -/
def jsNumToString : JSNum → String
  | JSNum.nan => "NaN"
  | JSNum.int z => intToString z

/-- JavaScript default sort comparator on the numbers of a time-unit
list. -/
def jsNumStrLe (a b : JSNum) : Bool :=
  strLe (jsNumToString a) (jsNumToString b)

/-- The special-expression table of `src/index.ts` (kept in sync with the
grammar by hand, per the source comment). -/
def SPECIAL_EXPRESSION_EXPANSION_MAP : List (String × String) :=
  [("minutely", "*-*-* *:*:00"),
   ("hourly", "*-*-* *:00:00"),
   ("daily", "*-*-* 00:00:00"),
   ("weekly", "Mon *-*-* 00:00:00"),
   ("monthly", "*-*-1 00:00:00"),
   ("quarterly", "*-1,4,7,10-1 00:00:00"),
   ("semiannually", "*-1,7-1 00:00:00"),
   ("yearly", "*-1-1 00:00:00"),
   ("annually", "*-1-1 00:00:00")]

/-- The nine keywords of the special-expression table. -/
def specialKeywords : List String :=
  ["minutely", "hourly", "daily", "weekly", "monthly", "quarterly",
   "semiannually", "yearly", "annually"]

/-- Expand special expressions ("hourly", "daily", ...) to their full
systemd calendar spec.  The source returns
`SPECIAL_EXPRESSION_EXPANSION_MAP.get(tokens.text)!` whose `!` is a
compile-time-only assertion, so the runtime value is `string | undefined`;
the embedding returns that as an `Option String`. -/
def expandSpecialExpression (tokens : Token) : Except JsError (Option String) :=
  (assertTokenType tokens "SpecialExpressions").bind fun _ =>
  (assertChildrenLengthLEQ tokens 0).bind fun _ =>
  Except.ok (mapLookup SPECIAL_EXPRESSION_EXPANSION_MAP tokens.text)

/-- Monday-indexed day names (systemd convention). -/
def SHORT_DAY_NAMES : List String :=
  ["mon", "tue", "wed", "thu", "fri", "sat", "sun"]

/-- Parse a `DayOfTheWeek` to its systemd integer equivalents. -/
def parseDayOfTheWeek (tokens : Token) : Except JsError (List Int) :=
  (assertTokenType tokens "DayOfTheWeek").bind fun _ =>
  Except.ok
    ((dedupFirst ((extractTextForType tokens "DayOfTheWeek").map dayKey)).map
      (fun day => jsIndexOf SHORT_DAY_NAMES day))

/-- Parse a `RangedWeekDaySpec` (e.g. `mon..wed`) into its systemd integer
equivalents.  The source reads `parseDayOfTheWeek(...)[0]!`; that list is
nonempty whenever the child's type assertion has passed (the root text is
always extracted first), so the `headD` default is never consulted. -/
def parseRangedWeekDaySpec (tokens : Token) : Except JsError (List Int) :=
  (assertTokenType tokens "RangedWeekDaySpec").bind fun _ =>
  (assertChildrenLengthEQ tokens 2).bind fun _ =>
  match tokens.children with
  | [c0, c1] =>
    (parseDayOfTheWeek c0).bind fun days0 =>
    (parseDayOfTheWeek c1).bind fun days1 =>
    let firstDay := days0.headD (-1)
    let secondDay := days1.headD (-1)
    if secondDay < firstDay then
      Except.error (JsError.error "Systemd starts weeks on Monday")
    else
      Except.ok (range (RangeArgs.two (JSNum.int firstDay) (JSNum.int (secondDay + 1))))
  | _ => Except.error (JsError.unexpectedChildren "2")

/-- Loop body of `parseWeekDaySpecEntry` over the entry's children. -/
def parseWeekDaySpecEntryTokens : List Token → Except JsError (List Int)
  | [] => Except.ok []
  | token :: rest =>
    (if token.type = "RangedWeekDaySpec" then parseRangedWeekDaySpec token
     else if token.type = "DayOfTheWeek" then parseDayOfTheWeek token
     else Except.error
       (JsError.unexpectedTokenType "RangedWeekDaySpec|DayOfTheWeek" token.type)).bind
    fun days =>
    (parseWeekDaySpecEntryTokens rest).bind fun restDays =>
    Except.ok (days ++ restDays)

/-- Parse a `WeekDaySpecEntry` (a `DayOfTheWeek` or a `RangedWeekDaySpec`)
into its systemd integer equivalents. -/
def parseWeekDaySpecEntry (tokens : Token) : Except JsError (List Int) :=
  (assertTokenType tokens "WeekDaySpecEntry").bind fun _ =>
  (assertChildrenLengthGEQ tokens 1).bind fun _ =>
  parseWeekDaySpecEntryTokens tokens.children

/-- Loop of `expandWeekDaySpec` collecting every entry's days. -/
def expandWeekDaySpecTokens : List Token → Except JsError (List Int)
  | [] => Except.ok []
  | token :: rest =>
    (parseWeekDaySpecEntry token).bind fun days =>
    (expandWeekDaySpecTokens rest).bind fun restDays =>
    Except.ok (days ++ restDays)

/-- Parse a `WeekDaySpec` into a unique, sorted list of ints (indices in
`SHORT_DAY_NAMES`): the days are unioned through a `Set` and then sorted
with JavaScript's default `.sort()`. -/
def expandWeekDaySpec (tokens : Token) : Except JsError (List Int) :=
  (assertTokenType tokens "WeekDaySpec").bind fun _ =>
  (assertChildrenLengthGEQ tokens 0).bind fun _ =>
  (expandWeekDaySpecTokens tokens.children).bind fun days =>
  Except.ok (insertionSort strLeInt (dedupFirst days))

/-- The maximum value each time-unit token type can have. -/
def tokenTypeToMaximumValue : List (String × Int) :=
  [("Month", 12), ("Day", 31), ("Hour", 24), ("Minute", 60), ("Second", 61)]

/-- One `switch` arm of `expandTimeUnitSpecEntry` for a single child of a
`TimeUnitSpecEntry`.  Reading a property of a missing child (`[0]!` /
`[1]!` on a too-short list) is JavaScript's TypeError on `undefined`. -/
def expandTimeUnitSpecChild (maxEndValue : Int) (child : Token) :
    Except JsError (List JSNum) :=
  if child.type = "RangedTimeUnit" then
    (assertChildrenLengthEQ child 2).bind fun _ =>
    match child.children with
    | [c0, endToken] =>
      let start := jsNumber c0.text
      if endToken.type = "RepeatedTimeUnit" then
        match endToken.children with
        | e0 :: e1 :: _ =>
          Except.ok
            ((range (RangeArgs.three start
              (jsMin (jsNumber e0.text) maxEndValue) (jsNumber e1.text))).map JSNum.int)
        | _ => Except.error (JsError.typeError "undefined")
      else if endToken.type = "TimeUnitNoWildcard" then
        Except.ok
          ((range (RangeArgs.three start
            (jsMin (jsNumber endToken.text) maxEndValue) (JSNum.int 1))).map JSNum.int)
      else Except.error (JsError.rangeError "Invalid end value for RangedTimeUnit")
    | _ => Except.error (JsError.unexpectedChildren "2")
  else if child.type = "RepeatedTimeUnit" then
    match child.children with
    | c0 :: c1 :: _ =>
      Except.ok
        ((range (RangeArgs.three (jsNumber c0.text) (JSNum.int maxEndValue)
          (jsNumber c1.text))).map JSNum.int)
    | _ => Except.error (JsError.typeError "undefined")
  else if child.type = "TimeUnit" then
    match child.children with
    | g :: _ =>
      if g.type = "TimeUnitNoWildcard" then Except.ok [jsNumber g.text]
      else Except.error (JsError.error "TODO")
    | _ => Except.error (JsError.typeError "undefined")
  else Except.error (JsError.typeError "Not a TimeUnitSpecEntry")

/-- Loop of `expandTimeUnitSpecEntry` over the entry's children. -/
def expandTimeUnitSpecEntryTokens (maxEndValue : Int) :
    List Token → Except JsError (List JSNum)
  | [] => Except.ok []
  | child :: rest =>
    (expandTimeUnitSpecChild maxEndValue child).bind fun vals =>
    (expandTimeUnitSpecEntryTokens maxEndValue rest).bind fun restVals =>
    Except.ok (vals ++ restVals)

/-- Parse a `TimeUnitSpecEntry` into a list of values.
`parentParentType` stands for the source's `token.parent.parent.type`
(the field node: Month, Day, Hour, Minute or Second), passed explicitly
because the functional tree has no parent back-pointers. -/
def expandTimeUnitSpecEntry (parentParentType : String) (token : Token) :
    Except JsError (List JSNum) :=
  (assertTokenType token "TimeUnitSpecEntry").bind fun _ =>
  match mapLookup tokenTypeToMaximumValue parentParentType with
  | none => Except.error (JsError.typeError ("Unknown " ++ parentParentType))
  | some maxEndValue => expandTimeUnitSpecEntryTokens maxEndValue token.children

/-- Loop of `expandTimeUnitSpec` over the entries of one `TimeUnitSpec`
token. -/
def expandTimeUnitSpecEntriesAll (parentParentType : String) :
    List Token → Except JsError (List JSNum)
  | [] => Except.ok []
  | e :: rest =>
    (expandTimeUnitSpecEntry parentParentType e).bind fun vals =>
    (expandTimeUnitSpecEntriesAll parentParentType rest).bind fun restVals =>
    Except.ok (vals ++ restVals)

/-- Loop of `expandTimeUnitSpec` over its token array. -/
def expandTimeUnitSpecTokens (parentParentType : String) :
    List Token → Except JsError (List JSNum)
  | [] => Except.ok []
  | token :: rest =>
    (assertTokenType token "TimeUnitSpec").bind fun _ =>
    (assertChildrenLengthGEQ token 1).bind fun _ =>
    (expandTimeUnitSpecEntriesAll parentParentType token.children).bind fun vals =>
    (expandTimeUnitSpecTokens parentParentType rest).bind fun restVals =>
    Except.ok (vals ++ restVals)

/-- Expand a `TimeUnitSpec` array into a `number[]`, made unique through a
`Set` and sorted with JavaScript's default `.sort()`.
`parentParentType` is the field node's type, as in
`expandTimeUnitSpecEntry`. -/
def expandTimeUnitSpec (parentParentType : String) (tokens : List Token) :
    Except JsError (List JSNum) :=
  (expandTimeUnitSpecTokens parentParentType tokens).bind fun values =>
  Except.ok (insertionSort jsNumStrLe (dedupFirst values))

/-- Result of `expandDateSpec`: the materialized values the `years`
generator yields, plus month and day value lists. -/
structure DateIterator where
  years : List Int
  months : List JSNum
  dates : List JSNum
deriving DecidableEq, Repr

/-- Parse a `DateSpec`.  The source's inner generator
`function* years(start, stop, step)` is invoked as `years()` with no
arguments, so `range` receives three `undefined`s, i.e. three NaNs after
`Number(...)`; the year sequence it yields is therefore empty.  The
`yearTokens` are fetched (crashing on a missing `Year` node, like the
source's `[0]!.children`) but never used. -/
def expandDateSpec (tokens : Token) : Except JsError DateIterator :=
  (assertTokenType tokens "DateSpec").bind fun _ =>
  (assertChildrenLengthGEQ tokens 1).bind fun _ =>
  match findChildrenByType tokens "Year", findChildrenByType tokens "Month",
      findChildrenByType tokens "Day" with
  | _ :: _, monthTok :: _, dateTok :: _ =>
    (expandTimeUnitSpec "Month" monthTok.children).bind fun months =>
    (expandTimeUnitSpec "Day" dateTok.children).bind fun dates =>
    Except.ok (DateIterator.mk (range (RangeArgs.three JSNum.nan JSNum.nan JSNum.nan))
      months dates)
  | _, _, _ => Except.error (JsError.typeError "undefined")

/-- Get the next elapse.  The source body is a stub: after asserting the
root token type it returns `new Date()`, the ambient current time, which
the embedding receives explicitly as `currentTime` (dates are milliseconds
since the Unix epoch).  The reference date is ignored. -/
def getNext (currentTime : Int) (tokens : Token) (referenceDate : Int) :
    Except JsError Int :=
  (assertTokenType tokens "FullCalendarSpec").bind fun _ =>
  Except.ok currentTime

/-- Leaf `DayOfTheWeek` node. -/
def dayTok (s : String) : Token :=
  Token.mk "DayOfTheWeek" s []

/-- Modelled from the spec: parse tree of the weekday spec
`"Sat,Thu,Mon..Wed,Sat..Sun"` as the external grammar produces it (a
`WeekDaySpec` whose entries are single day names or `RangedWeekDaySpec`
nodes with two `DayOfTheWeek` children). -/
def weekDayTreeSatThu : Token :=
  Token.mk "WeekDaySpec" "Sat,Thu,Mon..Wed,Sat..Sun"
    [Token.mk "WeekDaySpecEntry" "Sat" [dayTok "Sat"],
     Token.mk "WeekDaySpecEntry" "Thu" [dayTok "Thu"],
     Token.mk "WeekDaySpecEntry" "Mon..Wed"
       [Token.mk "RangedWeekDaySpec" "Mon..Wed" [dayTok "Mon", dayTok "Wed"]],
     Token.mk "WeekDaySpecEntry" "Sat..Sun"
       [Token.mk "RangedWeekDaySpec" "Sat..Sun" [dayTok "Sat", dayTok "Sun"]]]

/-- Modelled from the spec: parse tree of the weekday spec `"sun..tue"`. -/
def weekDayTreeSunTue : Token :=
  Token.mk "WeekDaySpec" "sun..tue"
    [Token.mk "WeekDaySpecEntry" "sun..tue"
      [Token.mk "RangedWeekDaySpec" "sun..tue" [dayTok "sun", dayTok "tue"]]]

/-- A `TimeUnitSpecEntry` holding one explicit value. -/
def timeUnitValueEntry (s : String) : Token :=
  Token.mk "TimeUnitSpecEntry" s
    [Token.mk "TimeUnit" s [Token.mk "TimeUnitNoWildcard" s []]]

/-- Modelled from the spec: a `TimeUnitSpec` for an hours field listing
the two explicit values `2,10`. -/
def hourSpecTwoTen : Token :=
  Token.mk "TimeUnitSpec" "2,10" [timeUnitValueEntry "2", timeUnitValueEntry "10"]

/-- Modelled from the spec: a `TimeUnitSpecEntry` for the ranged form
`12..14` (a `RangedTimeUnit` whose end is a plain `TimeUnitNoWildcard`). -/
def secondsEntry12to14 : Token :=
  Token.mk "TimeUnitSpecEntry" "12..14"
    [Token.mk "RangedTimeUnit" "12..14"
      [Token.mk "TimeUnitNoWildcard" "12" [],
       Token.mk "TimeUnitNoWildcard" "14" []]]

/-- Modelled from the spec: parse tree of the date spec `"2025-12-25"`
(Year, Month and Day components each holding a `TimeUnitSpec`). -/
def dateSpecTree2025 : Token :=
  Token.mk "DateSpec" "2025-12-25"
    [Token.mk "Year" "2025"
       [Token.mk "TimeUnitSpec" "2025" [timeUnitValueEntry "2025"]],
     Token.mk "Month" "12"
       [Token.mk "TimeUnitSpec" "12" [timeUnitValueEntry "12"]],
     Token.mk "Day" "25"
       [Token.mk "TimeUnitSpec" "25" [timeUnitValueEntry "25"]]]

/-- Modelled from the spec: root of the parse tree of
`"hourly America/Chicago"` (a `FullCalendarSpec`; `getNext` only reads
the root's type tag). -/
def fullCalendarSpecHourlyTree : Token :=
  Token.mk "FullCalendarSpec" "hourly America/Chicago"
    [Token.mk "SpecialExpressions" "hourly" [],
     Token.mk "TimeZone" "America/Chicago" []]

/-- Modelled from the spec: first child of the parse tree of `"*-*-*"`,
which is a date-spec node, not a `SpecialExpressions` node. -/
def dateSpecStarTree : Token :=
  Token.mk "DateSpec" "*-*-*"
    [Token.mk "Year" "*" [], Token.mk "Month" "*" [], Token.mk "Day" "*" []]

/-- A weekday token tree carries valid day names: the lowercased
three-letter key of every `DayOfTheWeek` text in the tree is one of the
seven `SHORT_DAY_NAMES` (the names the grammar accepts, case-insensitive,
full or three-letter). -/
def validB (t : Token) : Bool :=
  (extractTextForType t "DayOfTheWeek").all
    (fun s => memB (dayKey s) SHORT_DAY_NAMES)

theorem rangeAscFuel_stable (stop step : Int) :
    ∀ (n m : Nat) (start : Int), (stop - start).toNat ≤ n →
      (stop - start).toNat ≤ m →
      rangeAscFuel n start stop step = rangeAscFuel m start stop step := by
  intro n
  induction n with
  | zero =>
    intro m start hn _
    cases m with
    | zero => rfl
    | succ m =>
      rw [rangeAscFuel, rangeAscFuel]
      have : ¬ (0 < step ∧ start < stop) := by
        intro h
        omega
      rw [if_neg this]
  | succ n ih =>
    intro m start hn hm
    cases m with
    | zero =>
      rw [rangeAscFuel, rangeAscFuel]
      have : ¬ (0 < step ∧ start < stop) := by
        intro h
        omega
      rw [if_neg this]
    | succ m =>
      rw [rangeAscFuel, rangeAscFuel]
      by_cases h : 0 < step ∧ start < stop
      · rw [if_pos h, if_pos h, ih m (start + step) (by omega) (by omega)]
      · rw [if_neg h, if_neg h]

theorem rangeDescFuel_stable (stop step : Int) :
    ∀ (n m : Nat) (start : Int), (start - stop).toNat ≤ n →
      (start - stop).toNat ≤ m →
      rangeDescFuel n start stop step = rangeDescFuel m start stop step := by
  intro n
  induction n with
  | zero =>
    intro m start hn _
    cases m with
    | zero => rfl
    | succ m =>
      rw [rangeDescFuel, rangeDescFuel]
      have : ¬ (step < 0 ∧ stop < start) := by
        intro h
        omega
      rw [if_neg this]
  | succ n ih =>
    intro m start hn hm
    cases m with
    | zero =>
      rw [rangeDescFuel, rangeDescFuel]
      have : ¬ (step < 0 ∧ stop < start) := by
        intro h
        omega
      rw [if_neg this]
    | succ m =>
      rw [rangeDescFuel, rangeDescFuel]
      by_cases h : step < 0 ∧ stop < start
      · rw [if_pos h, if_pos h, ih m (start + step) (by omega) (by omega)]
      · rw [if_neg h, if_neg h]

theorem rangeAscFuel_mem (stop step : Int) (hst : 0 < step) :
    ∀ (n : Nat) (start x : Int), x ∈ rangeAscFuel n start stop step →
      start ≤ x ∧ x < stop := by
  intro n
  induction n with
  | zero =>
    intro start x hx
    simp [rangeAscFuel] at hx
  | succ n ih =>
    intro start x hx
    rw [rangeAscFuel] at hx
    by_cases h : 0 < step ∧ start < stop
    · rw [if_pos h] at hx
      rcases List.mem_cons.mp hx with rfl | hx'
      · exact ⟨le_refl x, h.2⟩
      · have := ih (start + step) x hx'
        omega
    · rw [if_neg h] at hx
      simp at hx

theorem rangeDescFuel_mem (stop step : Int) (hst : step < 0) :
    ∀ (n : Nat) (start x : Int), x ∈ rangeDescFuel n start stop step →
      x ≤ start ∧ stop < x := by
  intro n
  induction n with
  | zero =>
    intro start x hx
    simp [rangeDescFuel] at hx
  | succ n ih =>
    intro start x hx
    rw [rangeDescFuel] at hx
    by_cases h : step < 0 ∧ stop < start
    · rw [if_pos h] at hx
      rcases List.mem_cons.mp hx with rfl | hx'
      · exact ⟨le_refl x, h.2⟩
      · have := ih (start + step) x hx'
        omega
    · rw [if_neg h] at hx
      simp at hx

theorem rangeAscFuel_chain (stop step : Int) (hst : 0 < step) :
    ∀ (n : Nat) (start : Int),
      List.Chain' (fun x y => x < y) (rangeAscFuel n start stop step) := by
  intro n
  induction n with
  | zero =>
    intro start
    simp [rangeAscFuel]
  | succ n ih =>
    intro start
    rw [rangeAscFuel]
    by_cases h : 0 < step ∧ start < stop
    · rw [if_pos h]
      rcases heq : rangeAscFuel n (start + step) stop step with _ | ⟨y, ys⟩
      · simp
      · have hy : start + step ≤ y := by
          have : y ∈ rangeAscFuel n (start + step) stop step := by
            rw [heq]
            exact List.mem_cons_self y ys
          exact (rangeAscFuel_mem stop step hst n (start + step) y this).1
        have hchain := ih (start + step)
        rw [heq] at hchain
        exact List.chain'_cons.mpr ⟨by omega, hchain⟩
    · rw [if_neg h]
      simp

theorem rangeDescFuel_chain (stop step : Int) (hst : step < 0) :
    ∀ (n : Nat) (start : Int),
      List.Chain' (fun x y => y < x) (rangeDescFuel n start stop step) := by
  intro n
  induction n with
  | zero =>
    intro start
    simp [rangeDescFuel]
  | succ n ih =>
    intro start
    rw [rangeDescFuel]
    by_cases h : step < 0 ∧ stop < start
    · rw [if_pos h]
      rcases heq : rangeDescFuel n (start + step) stop step with _ | ⟨y, ys⟩
      · simp
      · have hy : y ≤ start + step := by
          have : y ∈ rangeDescFuel n (start + step) stop step := by
            rw [heq]
            exact List.mem_cons_self y ys
          exact (rangeDescFuel_mem stop step hst n (start + step) y this).1
        have hchain := ih (start + step)
        rw [heq] at hchain
        exact List.chain'_cons.mpr ⟨by omega, hchain⟩
    · rw [if_neg h]
      simp

theorem rangeAscFuel_length (stop step : Int) (hst : 0 < step) :
    ∀ (n : Nat) (start : Int),
      (rangeAscFuel n start stop step).length ≤ (stop - start).toNat := by
  intro n
  induction n with
  | zero =>
    intro start
    simp [rangeAscFuel]
  | succ n ih =>
    intro start
    rw [rangeAscFuel]
    by_cases h : 0 < step ∧ start < stop
    · rw [if_pos h]
      have := ih (start + step)
      simp only [List.length_cons]
      omega
    · rw [if_neg h]
      simp

theorem rangeDescFuel_length (stop step : Int) (hst : step < 0) :
    ∀ (n : Nat) (start : Int),
      (rangeDescFuel n start stop step).length ≤ (start - stop).toNat := by
  intro n
  induction n with
  | zero =>
    intro start
    simp [rangeDescFuel]
  | succ n ih =>
    intro start
    rw [rangeDescFuel]
    by_cases h : step < 0 ∧ stop < start
    · rw [if_pos h]
      have := ih (start + step)
      simp only [List.length_cons]
      omega
    · rw [if_neg h]
      simp

theorem rangeCore_length_le (s t st : Int) :
    (rangeCore (JSNum.int s) (JSNum.int t) (JSNum.int st)).length ≤ (t - s).natAbs := by
  simp only [rangeCore]
  by_cases he : s = t ∨ st = 0
  · rw [if_pos he]
    simp
  · rw [if_neg he]
    by_cases hlt : s < t
    · rw [if_pos hlt]
      by_cases hn : st < 0
      · rw [if_pos hn]
        simp
      · rw [if_neg hn]
        have h1 : 0 < st := by omega
        have := rangeAscFuel_length t st h1 ((t - s).toNat) s
        simp only [rangeAsc]
        omega
    · rw [if_neg hlt]
      by_cases hp : 0 < st
      · rw [if_pos hp]
        simp
      · rw [if_neg hp]
        have h1 : st < 0 := by omega
        have := rangeDescFuel_length t st h1 ((s - t).toNat) s
        simp only [rangeDesc]
        omega

/-- C4: the one-argument form of `range` equals `range(0, stop, 1)`; the
two-argument form uses step `+1` when `start < stop` and `-1` otherwise;
in the three-argument form the output is strictly monotonic in the
direction of the step's sign, contains no value equal to or past `stop`,
and is empty when the step is zero, `start = stop`, or the sign of
`stop - start` mismatches the sign of the step. -/
theorem range_forms_monotone_empty :
    (∀ a, range (RangeArgs.one a) =
      range (RangeArgs.three (JSNum.int 0) a (JSNum.int 1)))
    ∧ (∀ a b, range (RangeArgs.two a b) =
      range (RangeArgs.three a b (if jsLt a b then JSNum.int 1 else JSNum.int (-1))))
    ∧ (∀ s t st : Int, 0 < st →
      List.Chain' (fun x y => x < y)
          (range (RangeArgs.three (JSNum.int s) (JSNum.int t) (JSNum.int st)))
        ∧ ∀ x ∈ range (RangeArgs.three (JSNum.int s) (JSNum.int t) (JSNum.int st)), x < t)
    ∧ (∀ s t st : Int, st < 0 →
      List.Chain' (fun x y => y < x)
          (range (RangeArgs.three (JSNum.int s) (JSNum.int t) (JSNum.int st)))
        ∧ ∀ x ∈ range (RangeArgs.three (JSNum.int s) (JSNum.int t) (JSNum.int st)), t < x)
    ∧ (∀ s t : Int, range (RangeArgs.three (JSNum.int s) (JSNum.int t) (JSNum.int 0)) = [])
    ∧ (∀ s st : Int, range (RangeArgs.three (JSNum.int s) (JSNum.int s) (JSNum.int st)) = [])
    ∧ (∀ s t st : Int, s < t → st < 0 →
      range (RangeArgs.three (JSNum.int s) (JSNum.int t) (JSNum.int st)) = [])
    ∧ (∀ s t st : Int, t < s → 0 < st →
      range (RangeArgs.three (JSNum.int s) (JSNum.int t) (JSNum.int st)) = []) := by
  refine ⟨?_, ?_, ?_, ?_, ?_, ?_, ?_, ?_⟩
  · intro a
    cases a <;> rfl
  · intro a b
    rfl
  · intro s t st hst
    simp only [range, rangeCore]
    by_cases he : s = t ∨ st = 0
    · rw [if_pos he]
      exact ⟨List.chain'_nil, by simp⟩
    · rw [if_neg he]
      by_cases hlt : s < t
      · rw [if_pos hlt, if_neg (by omega : ¬ st < 0)]
        simp only [rangeAsc]
        exact ⟨rangeAscFuel_chain t st hst _ s,
          fun x hx => (rangeAscFuel_mem t st hst _ s x hx).2⟩
      · rw [if_neg hlt, if_pos hst]
        exact ⟨List.chain'_nil, by simp⟩
  · intro s t st hst
    simp only [range, rangeCore]
    by_cases he : s = t ∨ st = 0
    · rw [if_pos he]
      exact ⟨List.chain'_nil, by simp⟩
    · rw [if_neg he]
      by_cases hlt : s < t
      · rw [if_pos hlt, if_pos hst]
        exact ⟨List.chain'_nil, by simp⟩
      · rw [if_neg hlt, if_neg (by omega : ¬ 0 < st)]
        simp only [rangeDesc]
        exact ⟨rangeDescFuel_chain t st hst _ s,
          fun x hx => (rangeDescFuel_mem t st hst _ s x hx).2⟩
  · intro s t
    simp [range, rangeCore]
  · intro s st
    simp [range, rangeCore]
  · intro s t st h1 h2
    simp only [range, rangeCore]
    rw [if_neg (by omega : ¬ (s = t ∨ st = 0)), if_pos h1, if_pos h2]
  · intro s t st h1 h2
    simp only [range, rangeCore]
    rw [if_neg (by omega : ¬ (s = t ∨ st = 0)), if_neg (by omega : ¬ s < t), if_pos h2]

/-- Witness for C4 at concrete inputs. -/
theorem range_forms_monotone_empty_witness :
    List.Chain' (fun x y => x < y)
        (range (RangeArgs.three (JSNum.int 0) (JSNum.int 5) (JSNum.int 2)))
    ∧ range (RangeArgs.three (JSNum.int 5) (JSNum.int 0) (JSNum.int 2)) = [] :=
  ⟨(range_forms_monotone_empty.2.2.1 0 5 2 (by decide)).1,
   range_forms_monotone_empty.2.2.2.2.2.2.2 5 0 2 (by decide) (by decide)⟩

/-- C9: iteration of `range` terminates and is restartable.  The while
loops stabilise: any fuel at least `(stop - start).toNat` (respectively
`(start - stop).toNat`) produces the same finite list, so the loops end
after boundedly many iterations; every call's output length is bounded by
`rangeBound`; and a fresh call with the same arguments reproduces exactly
the same values. -/
theorem range_terminates_and_restartable :
    (∀ (stop step : Int) (n : Nat) (start : Int), (stop - start).toNat ≤ n →
      rangeAscFuel n start stop step = rangeAsc start stop step)
    ∧ (∀ (stop step : Int) (n : Nat) (start : Int), (start - stop).toNat ≤ n →
      rangeDescFuel n start stop step = rangeDesc start stop step)
    ∧ (∀ args : RangeArgs, (range args).length ≤ rangeBound args)
    ∧ (∀ args : RangeArgs, range args = range args) := by
  refine ⟨?_, ?_, ?_, fun _ => rfl⟩
  · intro stop step n start hn
    exact rangeAscFuel_stable stop step n ((stop - start).toNat) start hn (Nat.le_refl _)
  · intro stop step n start hn
    exact rangeDescFuel_stable stop step n ((start - stop).toNat) start hn (Nat.le_refl _)
  · intro args
    cases args with
    | one a =>
      cases a with
      | nan => simp [range, rangeCore, rangeBound]
      | int z =>
        by_cases hz : 0 ≤ z
        · have := rangeCore_length_le 0 z 1
          simp only [rangeBound, range]
          omega
        · have hcore : rangeCore (JSNum.int 0) (JSNum.int z) (JSNum.int 1) = [] := by
            simp only [rangeCore]
            rw [if_neg (by omega : ¬ ((0:Int) = z ∨ (1:Int) = 0)),
              if_neg (by omega : ¬ (0:Int) < z), if_pos (by omega : (0:Int) < 1)]
          simp [range, rangeBound, hcore]
    | two a b =>
      cases a with
      | nan => cases b <;> simp [range, rangeCore, rangeBound, jsLt]
      | int x =>
        cases b with
        | nan => simp [range, rangeCore, rangeBound, jsLt]
        | int y =>
          by_cases hxy : x < y
          · have hj : (if jsLt (JSNum.int x) (JSNum.int y) then JSNum.int 1
                else JSNum.int (-1)) = JSNum.int 1 := by
              simp [jsLt, hxy]
            simp only [range, hj, rangeBound]
            exact rangeCore_length_le x y 1
          · have hj : (if jsLt (JSNum.int x) (JSNum.int y) then JSNum.int 1
                else JSNum.int (-1)) = JSNum.int (-1) := by
              simp [jsLt, hxy]
            simp only [range, hj, rangeBound]
            exact rangeCore_length_le x y (-1)
    | three a b c =>
      cases a with
      | nan => cases b <;> cases c <;> simp [range, rangeCore, rangeBound]
      | int x =>
        cases b with
        | nan => cases c <;> simp [range, rangeCore, rangeBound]
        | int y =>
          cases c with
          | nan => simp [range, rangeCore, rangeBound]
          | int z =>
            simp only [range, rangeBound]
            exact rangeCore_length_le x y z

/-- Witness for C9 at concrete inputs. -/
theorem range_terminates_and_restartable_witness :
    rangeAscFuel 100 0 3 1 = rangeAsc 0 3 1
    ∧ (range (RangeArgs.three (JSNum.int 0) (JSNum.int 3) (JSNum.int 1))).length ≤
        rangeBound (RangeArgs.three (JSNum.int 0) (JSNum.int 3) (JSNum.int 1)) :=
  ⟨range_terminates_and_restartable.1 3 1 100 0 (by decide),
   range_terminates_and_restartable.2.2.1 _⟩

/-- C10: a `range` call in which any of start, stop or step is NaN yields
the empty sequence, for each of the three arity forms, and no error is
raised (the embedding returns a value, not an `Except.error`). -/
theorem range_nan_empty :
    range (RangeArgs.one JSNum.nan) = []
    ∧ (∀ b, range (RangeArgs.two JSNum.nan b) = []
        ∧ range (RangeArgs.two b JSNum.nan) = [])
    ∧ (∀ b c, range (RangeArgs.three JSNum.nan b c) = []
        ∧ range (RangeArgs.three b JSNum.nan c) = []
        ∧ range (RangeArgs.three b c JSNum.nan) = []) := by
  refine ⟨rfl, fun b => ⟨?_, ?_⟩, fun b c => ⟨?_, ?_, ?_⟩⟩
  · cases b <;> rfl
  · cases b <;> rfl
  · cases b <;> cases c <;> rfl
  · cases b <;> cases c <;> rfl
  · cases b <;> cases c <;> rfl

/-- Helper: boolean string-list membership implies propositional
membership. -/
theorem memB_mem : ∀ (l : List String) (k : String), memB k l = true → k ∈ l := by
  intro l k
  induction l with
  | nil => intro h; simp [memB] at h
  | cons x xs ih =>
    intro h
    rw [memB] at h
    by_cases hx : x = k
    · exact hx ▸ List.mem_cons_self x xs
    · rw [if_neg hx] at h
      exact List.mem_cons_of_mem x (ih h)

/-- C1: the next-occurrence operation.  The source's `getNext` is a stub;
on the parse tree of `hourly America/Chicago` it returns the ambient
current time (`new Date()`) for every reference instant, so at a current
time of the epoch it does not return the claimed next hourly elapse
`2025-12-25T17:00:00-05:00` (epoch milliseconds 1766700000000) for the
reference `2025-12-25T16:00:00-05:00` (1766696400000). -/
theorem getNext_stub_returns_current_time :
    (∀ currentTime referenceDate : Int,
      getNext currentTime fullCalendarSpecHourlyTree referenceDate =
        Except.ok currentTime)
    ∧ getNext 0 fullCalendarSpecHourlyTree 1766696400000 = Except.ok 0
    ∧ (Except.ok (0 : Int) : Except JsError Int) ≠ Except.ok 1766700000000 := by
  exact ⟨fun c r => rfl, rfl, by decide⟩

/-- C2: expansion of the ranged form `a..b`.  The source pushes
`range(start, end, step)` with its exclusive stop, so on the seconds entry
`12..14` it emits `[12, 13]` and the end value 14 is NOT included,
contradicting the claim's inclusive range. -/
theorem expandTimeUnitSpecEntry_range_excludes_end :
    expandTimeUnitSpecEntry "Second" secondsEntry12to14 =
      Except.ok [JSNum.int 12, JSNum.int 13]
    ∧ JSNum.int 14 ∉ [JSNum.int 12, JSNum.int 13] := by
  exact ⟨by decide, by decide⟩

/-- C3: sortedness of expanded sets.  `expandTimeUnitSpec` sorts with
JavaScript's default `.sort()`, which compares decimal strings, so the
hours list `2,10` expands to `[10, 2]` — not ascending numeric order. -/
theorem expandTimeUnitSpec_lexicographic_sort :
    expandTimeUnitSpec "Hour" [hourSpecTwoTen] = Except.ok [JSNum.int 10, JSNum.int 2]
    ∧ ¬ List.Chain' (fun a b : JSNum => jsLt a b = true)
        [JSNum.int 10, JSNum.int 2] := by
  refine ⟨by decide, fun h => ?_⟩
  exact absurd (List.chain'_cons.mp h).1 (by decide)

/-- C7: the special-expression table maps each of the nine keywords to its
canonical calendar-spec text, always a non-empty string (with the
documented texts for hourly, daily and weekly), and `expandSpecialExpression`
fails on every node whose type is not `SpecialExpressions`, in particular
on the date-spec node of `*-*-*`. -/
theorem expandSpecialExpression_keywords :
    (∀ kw, memB kw specialKeywords = true →
      ∃ out, mapLookup SPECIAL_EXPRESSION_EXPANSION_MAP kw = some out
        ∧ out ≠ ""
        ∧ expandSpecialExpression (Token.mk "SpecialExpressions" kw []) =
            Except.ok (some out))
    ∧ mapLookup SPECIAL_EXPRESSION_EXPANSION_MAP "hourly" = some "*-*-* *:00:00"
    ∧ mapLookup SPECIAL_EXPRESSION_EXPANSION_MAP "daily" = some "*-*-* 00:00:00"
    ∧ mapLookup SPECIAL_EXPRESSION_EXPANSION_MAP "weekly" = some "Mon *-*-* 00:00:00"
    ∧ (∀ t, t.type ≠ "SpecialExpressions" →
      expandSpecialExpression t =
        Except.error (JsError.unexpectedTokenType "SpecialExpressions" t.type))
    ∧ expandSpecialExpression dateSpecStarTree =
        Except.error (JsError.unexpectedTokenType "SpecialExpressions" "DateSpec") := by
  refine ⟨?_, by decide, by decide, by decide, ?_, by decide⟩
  · intro kw h
    have hmem : kw ∈ specialKeywords := memB_mem _ _ h
    simp only [specialKeywords, List.mem_cons, List.not_mem_nil, or_false] at hmem
    rcases hmem with rfl | rfl | rfl | rfl | rfl | rfl | rfl | rfl | rfl
    all_goals exact ⟨_, rfl, by decide, by decide⟩
  · intro t ht
    simp [expandSpecialExpression, assertTokenType, if_neg ht, Except.bind]

/-- Witness for C7 at the concrete keyword `hourly`. -/
theorem expandSpecialExpression_keywords_witness :
    ∃ out, mapLookup SPECIAL_EXPRESSION_EXPANSION_MAP "hourly" = some out
      ∧ out ≠ ""
      ∧ expandSpecialExpression (Token.mk "SpecialExpressions" "hourly" []) =
          Except.ok (some out) :=
  expandSpecialExpression_keywords.1 "hourly" (by decide)

/-- C8: date-spec expansion of `2025-12-25`.  Month and day sets are
`{12}` and `{25}` as claimed, but the year sequence is empty rather than
`{2025}`: the source's inner `years` generator is invoked with no
arguments, so the underlying `range` call receives NaNs and yields
nothing. -/
theorem expandDateSpec_2025_years_empty :
    expandDateSpec dateSpecTree2025 =
      Except.ok (DateIterator.mk [] [JSNum.int 12] [JSNum.int 25])
    ∧ (DateIterator.mk ([] : List Int) [JSNum.int 12] [JSNum.int 25]).years ≠
        [2025] := by
  exact ⟨by decide, by decide⟩

theorem bind_error {ε α β : Type} (e : ε) (f : α → Except ε β) :
    Except.bind (Except.error e) f = Except.error e := rfl

theorem bind_ok {ε α β : Type} (a : α) (f : α → Except ε β) :
    Except.bind (Except.ok a) f = f a := rfl

theorem assertTokenType_ok (t : Token) (ty : String) (h : t.type = ty) :
    assertTokenType t ty = Except.ok () := by
  simp [assertTokenType, h]

theorem assertTokenType_err (t : Token) (ty : String) (h : ¬ t.type = ty) :
    assertTokenType t ty = Except.error (JsError.unexpectedTokenType ty t.type) := by
  simp [assertTokenType, h]

theorem assertTokenType_mk_ok (ty tx : String) (cs : List Token) :
    assertTokenType (Token.mk ty tx cs) ty = Except.ok () :=
  assertTokenType_ok _ _ rfl

theorem assertEQ_ok (t : Token) (n : Nat) (h : t.children.length = n) :
    assertChildrenLengthEQ t n = Except.ok () := by
  simp [assertChildrenLengthEQ, h]

theorem assertGEQ_ok (t : Token) (m : Nat) (h : ¬ t.children.length < m) :
    assertChildrenLengthGEQ t m = Except.ok () := by
  simp [assertChildrenLengthGEQ, h]

theorem jsIndexOf_bound : ∀ (l : List String) (k : String), memB k l = true →
    0 ≤ jsIndexOf l k ∧ jsIndexOf l k < l.length := by
  intro l
  induction l with
  | nil =>
    intro k h
    simp [memB] at h
  | cons x xs ih =>
    intro k h
    rw [memB] at h
    rw [jsIndexOf]
    by_cases hx : x = k
    · rw [if_pos hx]
      simp only [List.length_cons]
      omega
    · rw [if_neg hx] at h
      have hb := ih k h
      rw [if_neg hx, if_neg (by omega : ¬ jsIndexOf xs k = -1)]
      simp only [List.length_cons]
      omega

theorem extractTextForType_head (ty0 tx : String) (cs : List Token)
    (h : ty0 = "DayOfTheWeek") :
    extractTextForType (Token.mk ty0 tx cs) "DayOfTheWeek" =
      tx :: extractTextList cs "DayOfTheWeek" := by
  rw [extractTextForType, if_pos h]
  rfl

theorem mem_extractTextList {s ty : String} : ∀ (cs : List Token) (c : Token),
    c ∈ cs → s ∈ extractTextForType c ty → s ∈ extractTextList cs ty := by
  intro cs
  induction cs with
  | nil =>
    intro c hc
    simp at hc
  | cons c0 cs ih =>
    intro c hc hs
    rw [extractTextList]
    rcases List.mem_cons.mp hc with rfl | hc'
    · exact List.mem_append.mpr (Or.inl hs)
    · exact List.mem_append.mpr (Or.inr (ih c hc' hs))

theorem validB_child (ty0 tx : String) (cs : List Token) (c : Token)
    (h : validB (Token.mk ty0 tx cs) = true) (hc : c ∈ cs) : validB c = true := by
  rw [validB] at h ⊢
  rw [List.all_eq_true] at h ⊢
  intro s hs
  apply h
  rw [extractTextForType]
  exact List.mem_append.mpr (Or.inr (mem_extractTextList cs c hc hs))

theorem mem_dedupFirstAux {α : Type} [DecidableEq α] :
    ∀ (l seen : List α) (x : α), x ∈ dedupFirstAux seen l → x ∈ l := by
  intro l
  induction l with
  | nil =>
    intro seen x h
    simp [dedupFirstAux] at h
  | cons y ys ih =>
    intro seen x h
    rw [dedupFirstAux] at h
    by_cases hy : y ∈ seen
    · rw [if_pos hy] at h
      exact List.mem_cons_of_mem _ (ih _ x h)
    · rw [if_neg hy] at h
      rcases List.mem_cons.mp h with rfl | h'
      · exact List.mem_cons_self _ _
      · exact List.mem_cons_of_mem _ (ih _ x h')

theorem mem_dedupFirst {α : Type} [DecidableEq α] (l : List α) (x : α)
    (h : x ∈ dedupFirst l) : x ∈ l :=
  mem_dedupFirstAux l [] x h

theorem dedupFirst_cons {α : Type} [DecidableEq α] (a : α) (l : List α) :
    dedupFirst (a :: l) = a :: dedupFirstAux [a] l := by
  rw [dedupFirst, dedupFirstAux, if_neg (List.not_mem_nil a)]

theorem mem_insertSorted {α : Type} (le : α → α → Bool) (a x : α) :
    ∀ l : List α, x ∈ insertSorted le a l ↔ x = a ∨ x ∈ l := by
  intro l
  induction l with
  | nil => simp [insertSorted]
  | cons y ys ih =>
    rw [insertSorted]
    by_cases hle : le a y = true
    · simp [hle, List.mem_cons]
    · simp [hle, List.mem_cons, ih]
      tauto

theorem mem_insertionSort {α : Type} (le : α → α → Bool) (x : α) :
    ∀ l : List α, x ∈ insertionSort le l ↔ x ∈ l := by
  intro l
  induction l with
  | nil => simp [insertionSort]
  | cons y ys ih =>
    rw [insertionSort, mem_insertSorted]
    simp [ih, List.mem_cons]

theorem parseDayOfTheWeek_eq_of_type (t : Token) (h : t.type = "DayOfTheWeek") :
    parseDayOfTheWeek t = Except.ok
      ((dedupFirst ((extractTextForType t "DayOfTheWeek").map dayKey)).map
        (fun day => jsIndexOf SHORT_DAY_NAMES day)) := by
  unfold parseDayOfTheWeek
  rw [assertTokenType_ok _ _ h, bind_ok]

theorem parseDayOfTheWeek_ok_type (t : Token) (l : List Int)
    (hok : parseDayOfTheWeek t = Except.ok l) : t.type = "DayOfTheWeek" := by
  by_cases h : t.type = "DayOfTheWeek"
  · exact h
  · unfold parseDayOfTheWeek at hok
    rw [assertTokenType_err _ _ h, bind_error] at hok
    exact Except.noConfusion hok

theorem parseDayOfTheWeek_shape (ty0 tx : String) (cs : List Token)
    (h : ty0 = "DayOfTheWeek") :
    ∃ rest, parseDayOfTheWeek (Token.mk ty0 tx cs) =
      Except.ok (jsIndexOf SHORT_DAY_NAMES (dayKey tx) :: rest) := by
  subst h
  rw [parseDayOfTheWeek_eq_of_type (Token.mk "DayOfTheWeek" tx cs) rfl,
    extractTextForType_head _ _ _ rfl,
    List.map_cons, dedupFirst_cons, List.map_cons]
  exact ⟨_, rfl⟩

theorem parseDayOfTheWeek_headD_mem (t : Token) (l : List Int)
    (hok : parseDayOfTheWeek t = Except.ok l) : l.headD (-1) ∈ l := by
  have ht := parseDayOfTheWeek_ok_type t l hok
  cases t with
  | mk ty0 tx cs =>
    rcases parseDayOfTheWeek_shape ty0 tx cs ht with ⟨rest, heq⟩
    rw [heq] at hok
    have hl := Except.ok.inj hok
    rw [← hl, List.headD_cons]
    exact List.mem_cons_self _ _

theorem parseDayOfTheWeek_bound (t : Token) (l : List Int)
    (hval : validB t = true) (hok : parseDayOfTheWeek t = Except.ok l) :
    ∀ x ∈ l, 0 ≤ x ∧ x ≤ 6 := by
  intro x hx
  have ht := parseDayOfTheWeek_ok_type t l hok
  rw [parseDayOfTheWeek_eq_of_type t ht] at hok
  have hl := Except.ok.inj hok
  rw [← hl] at hx
  rcases List.mem_map.mp hx with ⟨k, hk, rfl⟩
  have hk' := mem_dedupFirst _ _ hk
  rcases List.mem_map.mp hk' with ⟨s, hs, rfl⟩
  have hmem : memB (dayKey s) SHORT_DAY_NAMES = true := by
    rw [validB, List.all_eq_true] at hval
    exact hval s hs
  have hb := jsIndexOf_bound SHORT_DAY_NAMES (dayKey s) hmem
  have hlen : SHORT_DAY_NAMES.length = 7 := rfl
  omega

theorem range_two_mem (a b x : Int) (hab : a ≤ b)
    (hx : x ∈ range (RangeArgs.two (JSNum.int a) (JSNum.int (b + 1)))) :
    a ≤ x ∧ x ≤ b := by
  have hstep : (if jsLt (JSNum.int a) (JSNum.int (b + 1)) then JSNum.int 1
      else JSNum.int (-1)) = JSNum.int 1 := by
    simp [jsLt]
    omega
  rw [range, hstep] at hx
  rw [rangeCore] at hx
  rw [if_neg (by omega : ¬ (a = b + 1 ∨ (1 : Int) = 0)),
    if_pos (by omega : a < b + 1), if_neg (by omega : ¬ (1 : Int) < 0)] at hx
  rw [rangeAsc] at hx
  have := rangeAscFuel_mem (b + 1) 1 (by omega) _ a x hx
  omega

theorem parseRangedWeekDaySpec_pair (rtext : String) (a b : Token) :
    parseRangedWeekDaySpec (Token.mk "RangedWeekDaySpec" rtext [a, b]) =
      (parseDayOfTheWeek a).bind fun days0 =>
      (parseDayOfTheWeek b).bind fun days1 =>
      if days1.headD (-1) < days0.headD (-1) then
        Except.error (JsError.error "Systemd starts weeks on Monday")
      else
        Except.ok (range (RangeArgs.two (JSNum.int (days0.headD (-1)))
          (JSNum.int (days1.headD (-1) + 1)))) := by
  unfold parseRangedWeekDaySpec
  rw [assertTokenType_mk_ok, bind_ok,
    assertEQ_ok (Token.mk "RangedWeekDaySpec" rtext [a, b]) 2 rfl, bind_ok]
  rfl

theorem parseRangedWeekDaySpec_bound (t : Token) (l : List Int)
    (hval : validB t = true) (hok : parseRangedWeekDaySpec t = Except.ok l) :
    ∀ x ∈ l, 0 ≤ x ∧ x ≤ 6 := by
  cases t with
  | mk ty0 tx cs =>
    by_cases hty : ty0 = "RangedWeekDaySpec"
    · subst hty
      rcases cs with _ | ⟨c0, _ | ⟨c1, _ | ⟨c2, cs'⟩⟩⟩
      · exfalso
        unfold parseRangedWeekDaySpec at hok
        rw [assertTokenType_mk_ok, bind_ok] at hok
        simp [assertChildrenLengthEQ, Token.children, Except.bind] at hok
      · exfalso
        unfold parseRangedWeekDaySpec at hok
        rw [assertTokenType_mk_ok, bind_ok] at hok
        simp [assertChildrenLengthEQ, Token.children, Except.bind] at hok
      · rw [parseRangedWeekDaySpec_pair] at hok
        cases h0 : parseDayOfTheWeek c0 with
        | error e =>
          rw [h0, bind_error] at hok
          exact absurd hok (by simp)
        | ok l0 =>
          cases h1 : parseDayOfTheWeek c1 with
          | error e =>
            rw [h0, bind_ok, h1, bind_error] at hok
            exact absurd hok (by simp)
          | ok l1 =>
            rw [h0, bind_ok, h1, bind_ok] at hok
            by_cases hcmp : l1.headD (-1) < l0.headD (-1)
            · rw [if_pos hcmp] at hok
              exact absurd hok (by simp)
            · rw [if_neg hcmp] at hok
              have hl := Except.ok.inj hok
              have hv0 : validB c0 = true :=
                validB_child _ _ _ c0 hval (by simp)
              have hv1 : validB c1 = true :=
                validB_child _ _ _ c1 hval (by simp)
              have hb0 := parseDayOfTheWeek_bound c0 l0 hv0 h0
                (l0.headD (-1)) (parseDayOfTheWeek_headD_mem c0 l0 h0)
              have hb1 := parseDayOfTheWeek_bound c1 l1 hv1 h1
                (l1.headD (-1)) (parseDayOfTheWeek_headD_mem c1 l1 h1)
              intro x hx
              rw [← hl] at hx
              have := range_two_mem (l0.headD (-1)) (l1.headD (-1)) x
                (by omega) hx
              omega
      · exfalso
        unfold parseRangedWeekDaySpec at hok
        rw [assertTokenType_mk_ok, bind_ok] at hok
        simp [assertChildrenLengthEQ, Token.children, Except.bind] at hok
    · exfalso
      unfold parseRangedWeekDaySpec at hok
      rw [assertTokenType_err (Token.mk ty0 tx cs) "RangedWeekDaySpec"
        (by simpa [Token.type] using hty), bind_error] at hok
      exact Except.noConfusion hok

theorem weekDayEntryChild_bound (c : Token) (days : List Int)
    (hval : validB c = true)
    (hd : (if c.type = "RangedWeekDaySpec" then parseRangedWeekDaySpec c
      else if c.type = "DayOfTheWeek" then parseDayOfTheWeek c
      else Except.error (JsError.unexpectedTokenType
        "RangedWeekDaySpec|DayOfTheWeek" c.type)) = Except.ok days) :
    ∀ x ∈ days, 0 ≤ x ∧ x ≤ 6 := by
  by_cases h1 : c.type = "RangedWeekDaySpec"
  · rw [if_pos h1] at hd
    exact parseRangedWeekDaySpec_bound c days hval hd
  · rw [if_neg h1] at hd
    by_cases h2 : c.type = "DayOfTheWeek"
    · rw [if_pos h2] at hd
      exact parseDayOfTheWeek_bound c days hval hd
    · rw [if_neg h2] at hd
      exact absurd hd (by simp)

theorem parseWeekDaySpecEntryTokens_bound : ∀ (cs : List Token) (l : List Int),
    (∀ c ∈ cs, validB c = true) → parseWeekDaySpecEntryTokens cs = Except.ok l →
    ∀ x ∈ l, 0 ≤ x ∧ x ≤ 6 := by
  intro cs
  induction cs with
  | nil =>
    intro l _ hok x hx
    rw [parseWeekDaySpecEntryTokens] at hok
    have := Except.ok.inj hok
    rw [← this] at hx
    simp at hx
  | cons c rest ih =>
    intro l hval hok x hx
    rw [parseWeekDaySpecEntryTokens] at hok
    cases hd : (if c.type = "RangedWeekDaySpec" then parseRangedWeekDaySpec c
      else if c.type = "DayOfTheWeek" then parseDayOfTheWeek c
      else Except.error (JsError.unexpectedTokenType
        "RangedWeekDaySpec|DayOfTheWeek" c.type)) with
    | error e =>
      rw [hd, bind_error] at hok
      exact absurd hok (by simp)
    | ok days =>
      rw [hd, bind_ok] at hok
      cases hrest : parseWeekDaySpecEntryTokens rest with
      | error e =>
        rw [hrest, bind_error] at hok
        exact absurd hok (by simp)
      | ok restDays =>
        rw [hrest, bind_ok] at hok
        have hl := Except.ok.inj hok
        rw [← hl] at hx
        rcases List.mem_append.mp hx with hx' | hx'
        · exact weekDayEntryChild_bound c days
            (hval c (List.mem_cons_self _ _)) hd x hx'
        · exact ih restDays (fun d hdm => hval d (List.mem_cons_of_mem _ hdm))
            hrest x hx'

theorem parseWeekDaySpecEntry_bound (t : Token) (l : List Int)
    (hval : validB t = true) (hok : parseWeekDaySpecEntry t = Except.ok l) :
    ∀ x ∈ l, 0 ≤ x ∧ x ≤ 6 := by
  cases t with
  | mk ty0 tx cs =>
    by_cases hty : ty0 = "WeekDaySpecEntry"
    · subst hty
      unfold parseWeekDaySpecEntry at hok
      rw [assertTokenType_mk_ok, bind_ok] at hok
      rcases cs with _ | ⟨c0, crest⟩
      · exfalso
        simp [assertChildrenLengthGEQ, Token.children, Except.bind] at hok
      · have hng : ¬ (Token.mk "WeekDaySpecEntry" tx (c0 :: crest)).children.length < 1 := by
          simp only [Token.children, List.length_cons]
          omega
        rw [assertGEQ_ok _ _ hng, bind_ok] at hok
        exact parseWeekDaySpecEntryTokens_bound _ l
          (fun c hc => validB_child _ _ _ c hval hc) hok
    · exfalso
      unfold parseWeekDaySpecEntry at hok
      rw [assertTokenType_err (Token.mk ty0 tx cs) "WeekDaySpecEntry"
        (by simpa [Token.type] using hty), bind_error] at hok
      exact Except.noConfusion hok

theorem expandWeekDaySpecTokens_bound : ∀ (cs : List Token) (l : List Int),
    (∀ c ∈ cs, validB c = true) → expandWeekDaySpecTokens cs = Except.ok l →
    ∀ x ∈ l, 0 ≤ x ∧ x ≤ 6 := by
  intro cs
  induction cs with
  | nil =>
    intro l _ hok x hx
    rw [expandWeekDaySpecTokens] at hok
    have := Except.ok.inj hok
    rw [← this] at hx
    simp at hx
  | cons c rest ih =>
    intro l hval hok x hx
    rw [expandWeekDaySpecTokens] at hok
    cases hd : parseWeekDaySpecEntry c with
    | error e =>
      rw [hd, bind_error] at hok
      exact absurd hok (by simp)
    | ok days =>
      rw [hd, bind_ok] at hok
      cases hrest : expandWeekDaySpecTokens rest with
      | error e =>
        rw [hrest, bind_error] at hok
        exact absurd hok (by simp)
      | ok restDays =>
        rw [hrest, bind_ok] at hok
        have hl := Except.ok.inj hok
        rw [← hl] at hx
        rcases List.mem_append.mp hx with hx' | hx'
        · exact parseWeekDaySpecEntry_bound c days
            (hval c (List.mem_cons_self _ _)) hd x hx'
        · exact ih restDays (fun d hdm => hval d (List.mem_cons_of_mem _ hdm))
            hrest x hx'

/-- C5: for every weekday-spec tree whose day names are valid (the
case-insensitive full or three-letter names the grammar accepts),
`expandWeekDaySpec` returns only indices within 0..6 (Monday = 0 through
Sunday = 6); re-expanding the same tree yields the same sorted list; and
on the parse of `"Sat,Thu,Mon..Wed,Sat..Sun"` it returns
`[0, 1, 2, 3, 5, 6]`. -/
theorem expandWeekDaySpec_bounds :
    (∀ (t : Token) (l : List Int), validB t = true →
      expandWeekDaySpec t = Except.ok l → ∀ x ∈ l, 0 ≤ x ∧ x ≤ 6)
    ∧ (∀ t : Token, expandWeekDaySpec t = expandWeekDaySpec t)
    ∧ expandWeekDaySpec weekDayTreeSatThu = Except.ok [0, 1, 2, 3, 5, 6] := by
  refine ⟨?_, fun _ => rfl, by decide⟩
  intro t l hval hok x hx
  cases t with
  | mk ty0 tx cs =>
    by_cases hty : ty0 = "WeekDaySpec"
    · subst hty
      unfold expandWeekDaySpec at hok
      have hng : ¬ (Token.mk "WeekDaySpec" tx cs).children.length < 0 := by
        simp
      rw [assertTokenType_mk_ok, bind_ok, assertGEQ_ok _ _ hng, bind_ok] at hok
      cases hds : expandWeekDaySpecTokens (Token.mk "WeekDaySpec" tx cs).children with
      | error e =>
        rw [hds, bind_error] at hok
        exact absurd hok (by simp)
      | ok days =>
        rw [hds, bind_ok] at hok
        have hl := Except.ok.inj hok
        rw [← hl] at hx
        have hx' := mem_dedupFirst _ _ ((mem_insertionSort _ _ _).mp hx)
        exact expandWeekDaySpecTokens_bound _ days
          (fun c hc => validB_child _ _ _ c hval hc) hds x hx'
    · exfalso
      unfold expandWeekDaySpec at hok
      rw [assertTokenType_err (Token.mk ty0 tx cs) "WeekDaySpec"
        (by simpa [Token.type] using hty), bind_error] at hok
      exact Except.noConfusion hok

/-- Witness for C5: the bound instantiated at the concrete tree of
`"Sat,Thu,Mon..Wed,Sat..Sun"` and its member 5. -/
theorem expandWeekDaySpec_bounds_witness : 0 ≤ (5 : Int) ∧ (5 : Int) ≤ 6 :=
  expandWeekDaySpec_bounds.1 weekDayTreeSatThu [0, 1, 2, 3, 5, 6]
    (by decide) (by decide) 5 (by decide)

/-- C6: a weekday range `A..B` expands successfully exactly when the
Monday-zero index of B is at least the index of A; when `index(B) <
index(A)` it fails with the order error whose message
`"Systemd starts weeks on Monday"` mentions `"Monday"`, and in particular
the parse of `"sun..tue"` fails with that error. -/
theorem weekday_range_requires_monday_order :
    (∀ (ta tb : Token) (rtext : String),
      ta.type = "DayOfTheWeek" → tb.type = "DayOfTheWeek" →
      ((jsIndexOf SHORT_DAY_NAMES (dayKey ta.text) ≤
          jsIndexOf SHORT_DAY_NAMES (dayKey tb.text) →
        parseRangedWeekDaySpec (Token.mk "RangedWeekDaySpec" rtext [ta, tb]) =
          Except.ok (range (RangeArgs.two
            (JSNum.int (jsIndexOf SHORT_DAY_NAMES (dayKey ta.text)))
            (JSNum.int (jsIndexOf SHORT_DAY_NAMES (dayKey tb.text) + 1)))))
      ∧ (jsIndexOf SHORT_DAY_NAMES (dayKey tb.text) <
          jsIndexOf SHORT_DAY_NAMES (dayKey ta.text) →
        parseRangedWeekDaySpec (Token.mk "RangedWeekDaySpec" rtext [ta, tb]) =
          Except.error (JsError.error "Systemd starts weeks on Monday"))))
    ∧ "Systemd starts weeks on Monday" =
        "Systemd starts weeks on " ++ "Monday" ++ ""
    ∧ expandWeekDaySpec weekDayTreeSunTue =
        Except.error (JsError.error "Systemd starts weeks on Monday") := by
  refine ⟨?_, by decide, by decide⟩
  intro ta tb rtext hta htb
  cases ta with
  | mk tya txa csa =>
    cases tb with
    | mk tyb txb csb =>
      simp only [Token.text]
      rcases parseDayOfTheWeek_shape tya txa csa hta with ⟨restA, hA⟩
      rcases parseDayOfTheWeek_shape tyb txb csb htb with ⟨restB, hB⟩
      constructor
      · intro hle
        rw [parseRangedWeekDaySpec_pair, hA, bind_ok, hB, bind_ok,
          List.headD_cons, List.headD_cons, if_neg (by omega)]
      · intro hlt
        rw [parseRangedWeekDaySpec_pair, hA, bind_ok, hB, bind_ok,
          List.headD_cons, List.headD_cons, if_pos (by omega)]

/-- Witness for C6: the failing direction at the concrete range
`sun..tue`. -/
theorem weekday_range_requires_monday_order_witness :
    parseRangedWeekDaySpec (Token.mk "RangedWeekDaySpec" "sun..tue"
      [dayTok "sun", dayTok "tue"]) =
      Except.error (JsError.error "Systemd starts weeks on Monday") :=
  (weekday_range_requires_monday_order.1 (dayTok "sun") (dayTok "tue") "sun..tue"
    rfl rfl).2 (by decide)

end SystemdCalendar
